import Mathlib

/-!
Verification of the onionbell core against its specification.

The development shallowly embeds the event-stream decoder (`App::get_event`),
the event parser and dispatcher step (`App::run`), the rule matcher
(`HyprClient::match_rule`) and the configuration volume boundary
(`validate_volume` / `default_volume`) from the Rust sources.  Byte streams
are modelled explicitly; machine strings are modelled as Lean `String`
(the relevant comparisons are byte-for-byte on UTF-8 data, which agrees with
character-list equality); the `f32` volume is modelled as `Rat`, which is
faithful to the order comparisons the code performs on it.
-/

namespace Onionbell

/-- A model of the blocking byte stream backing the event socket.
`eof` is a closed stream: a `read` on it succeeds and transfers 0 bytes
(the documented behaviour of `Read::read` at end of stream).
`ioError` is a stream whose next read fails with an I/O error. -/
inductive ByteStream
  | eof : ByteStream
  | ioError : ByteStream
  | cons : Nat → ByteStream → ByteStream

/-- Bytes delivered by a single read request of `n` bytes: up to `n` bytes are
transferred, stopping early when the stream ends (or reaches the error point,
which then surfaces only on the next read). -/
def takeAvail : Nat → ByteStream → List Nat × ByteStream
  | 0, s => ([], s)
  | _ + 1, ByteStream.eof => ([], ByteStream.eof)
  | _ + 1, ByteStream.ioError => ([], ByteStream.ioError)
  | n + 1, ByteStream.cons b r =>
      let p := takeAvail n r
      (b :: p.1, p.2)

/-- One call `socket.read(&mut buf[..n])`.  The call fails exactly when the
stream is positioned at an I/O error; at end of stream it succeeds with 0
bytes transferred; otherwise it transfers up to `n` bytes. -/
def readCall : Nat → ByteStream → Except Unit (List Nat × ByteStream)
  | 0, s => Except.ok ([], s)
  | _ + 1, ByteStream.ioError => Except.error ()
  | n + 1, ByteStream.eof => Except.ok (takeAvail (n + 1) ByteStream.eof)
  | n + 1, ByteStream.cons b r => Except.ok (takeAvail (n + 1) (ByteStream.cons b r))

/-- The character-length computation of `App::get_event` (src/app.rs lines
155-160), with the match arms in source order; Rust tests the guards top to
bottom, so the first guard that holds decides the arm. -/
def utf8Len (b : Nat) : Nat :=
  if b &&& 0xC0 == 0xC0 then 2
  else if b &&& 0xE0 == 0xE0 then 3
  else if b &&& 0xF0 == 0xF0 then 4
  else 1

/-- The loop body of `App::get_event`, fuelled.  Each iteration zeroes a
4-byte `character_buf`, reads one byte into slot 0, computes `len` from that
slot, reads `len - 1` further bytes into slots `1..len` when `len > 1`, and
inspects `character_buf[0..len]` (read bytes followed by the remaining zero
padding).  `none` means the fuel ran out before the loop finished;
`some (Except.error ())` models an early `return Err`;
`some (Except.ok (buffer, rest))` models `break` followed by returning the
accumulated bytes, with `rest` the unconsumed stream. -/
def getEventLoop : Nat → ByteStream → List Nat →
    Option (Except Unit (List Nat × ByteStream))
  | 0, _, _ => none
  | fuel + 1, s, buffer =>
    match readCall 1 s with
    | Except.error _ => some (Except.error ())
    | Except.ok (bs1, s1) =>
      let b0 := bs1.headD 0
      let len := utf8Len b0
      match (if len > 1 then readCall (len - 1) s1 else Except.ok ([], s1)) with
      | Except.error _ => some (Except.error ())
      | Except.ok (bs2, s2) =>
        let character := (bs1 ++ bs2 ++ List.replicate 4 0).take len
        if character = [0x0A] then some (Except.ok (buffer, s2))
        else getEventLoop fuel s2 (buffer ++ character)

/-- `App::get_event` with an empty accumulator, fuelled. -/
def get_event (fuel : Nat) (s : ByteStream) :
    Option (Except Unit (List Nat × ByteStream)) :=
  getEventLoop fuel s []

/-- Builds the stream holding exactly the given bytes and then closed. -/
def ofList : List Nat → ByteStream
  | [] => ByteStream.eof
  | b :: rest => ByteStream.cons b (ofList rest)

/-- The `workspace` field of a Hyprland client (src/hypr.rs `HyprWorkspace`). -/
structure HyprWorkspace where
  id : Int
  name : String

/-- A window descriptor as deserialized from the directory query
(src/hypr.rs `HyprClient`).  `i32` fields are modelled as `Int`; the Rust
field names `at` and `class` are Lean keywords and are rendered `at_` and
`class_`. -/
structure HyprClient where
  address : String
  mapped : Bool
  hidden : Bool
  at_ : Int × Int
  size : Int × Int
  workspace : HyprWorkspace
  floating : Bool
  pseudo : Bool
  monitor : Int
  class_ : String
  title : String
  initial_class : String
  initial_title : String
  pid : Int
  xwayland : Bool
  pinned : Bool
  fullscreen : Int
  fullscreen_client : Int
  grouped : List String
  swallowing : String
  focus_history_id : Int
  inhibiting_idle : Bool
  xdg_tag : String
  xdg_description : String
  content_type : String

/-- The untagged workspace matcher of a rule (src/config.rs `WorkspaceRule`). -/
inductive WorkspaceRule
  | id : Int → WorkspaceRule
  | name : String → WorkspaceRule

/-- A configuration rule (src/config.rs `Rule`).  Regular-expression fields
hold the pattern as an abstract regular expression; sound paths are modelled
as strings. -/
structure Rule where
  sound : Option String
  volume : Rat
  workspace : Option WorkspaceRule
  floating : Option Bool
  class_regex : Option (RegularExpression Char)
  title_regex : Option (RegularExpression Char)
  xwayland : Option Bool

/-- The loaded configuration (src/config.rs `Config`). -/
structure Config where
  sound : Option String
  volume : Rat
  rules : List Rule

/-- All suffixes of a list, longest first. -/
def tailsOf : List Char → List (List Char)
  | [] => [[]]
  | c :: r => (c :: r) :: tailsOf r

/-- All initial segments of a list, shortest first. -/
def initsOf : List Char → List (List Char)
  | [] => [[]]
  | c :: r => [] :: (initsOf r).map (fun t => c :: t)

/-- Modelled from the spec: `Regex::is_match` of the external regex crate is
an unanchored search — it reports whether the pattern matches some contiguous
substring of the haystack (not necessarily the whole string). -/
def re_is_match (re : RegularExpression Char) (s : String) : Bool :=
  (tailsOf s.toList).any (fun t => (initsOf t).any (fun m => re.rmatch m))

/-- The per-client test of the resolution scan in `HyprClient::match_rule`
(src/hypr.rs lines 66-75): an address not starting with the two ASCII bytes
`"0x"` is skipped (`continue`), i.e. never matches; otherwise the address
with those two bytes stripped (`&c.address[2..]`) is compared byte-for-byte
with `data` (on UTF-8 strings byte equality coincides with character-list
equality). -/
def addrMatches (c : HyprClient) (data : String) : Bool :=
  match c.address.toList with
  | '0' :: 'x' :: tail => String.mk tail = data
  | _ => false

/-- Target resolution of `HyprClient::match_rule` (src/hypr.rs lines 65-79):
scan the client list in order and take the first client whose address passes
`addrMatches` (`client = Some(c); break`). -/
def resolveClient : List HyprClient → String → Option HyprClient
  | [], _ => none
  | c :: rest, data =>
    if addrMatches c data then some c else resolveClient rest data

/-- `HyprClient::match_rule` (src/hypr.rs lines 64-111): resolve the target,
then fold the conjunction of the present predicates into `accumulator`
exactly as the source does. -/
def match_rule (clients : List HyprClient) (data : String) (rule : Rule) : Bool :=
  match resolveClient clients data with
  | none => false
  | some client =>
    let accumulator := true
    let accumulator :=
      match rule.workspace with
      | some (WorkspaceRule.id i) => accumulator && (client.workspace.id == i)
      | some (WorkspaceRule.name n) => accumulator && (client.workspace.name == n)
      | none => accumulator
    let accumulator :=
      match rule.floating with
      | some f => accumulator && (client.floating == f)
      | none => accumulator
    let accumulator :=
      match rule.xwayland with
      | some x => accumulator && (client.xwayland == x)
      | none => accumulator
    let accumulator :=
      match rule.class_regex with
      | some re => accumulator && re_is_match re client.class_
      | none => accumulator
    let accumulator :=
      match rule.title_regex with
      | some re => accumulator && re_is_match re client.title
      | none => accumulator
    accumulator

/-- The rule loop of `App::run` (src/app.rs lines 200-206): try the rules in
list order and stop at the first match (`break`). -/
def firstMatchingRule (clients : List HyprClient) (data : String) :
    List Rule → Option Rule
  | [] => none
  | r :: rest =>
    if match_rule clients data r then some r
    else firstMatchingRule clients data rest

/-- Split at the first occurrence of the pattern, on character lists:
the model of Rust `str::split_once`.  Checks each position left to right, so
the leftmost occurrence of the pattern wins. -/
def splitOnceChars (pat : List Char) : List Char → Option (List Char × List Char)
  | [] => none
  | c :: rest =>
    if pat.isPrefixOf (c :: rest) then some ([], (c :: rest).drop pat.length)
    else
      match splitOnceChars pat rest with
      | some (k, p) => some (c :: k, p)
      | none => none

/-- `event.split_once(pat)` on strings. -/
def split_once (s pat : String) : Option (String × String) :=
  (splitOnceChars pat.toList s.toList).map
    (fun kp => (String.mk kp.1, String.mk kp.2))

/-- The observable outcome of one iteration of the `App::run` loop. -/
inductive StepOutcome
  | fatal
  | skipMalformed
  | ignored (ev_type : String)
  | bell (sound : Option String) (volume : Rat)

/-- The bell branch of `App::run` (src/app.rs lines 195-221): on query
success, take the first matching rule and record its sound and volume; on
query failure, record nothing; then fall back to the global defaults via
`unwrap_or`. -/
def bellOutcome (query : Except Unit (List HyprClient)) (data : String)
    (cfg : Config) : Option String × Rat :=
  let hit : Option Rule :=
    match query with
    | Except.ok clients => firstMatchingRule clients data cfg.rules
    | Except.error _ => none
  let sfx_path : Option (Option String) := hit.map Rule.sound
  let volume : Option Rat := hit.map Rule.volume
  (sfx_path.getD cfg.sound, volume.getD cfg.volume)

/-- One iteration of the `App::run` loop (src/app.rs lines 182-226): a
failed `get_event` propagates as a fatal error; a line without the `">>"`
delimiter is logged and skipped; a non-`"bell"` kind is ignored; a `"bell"`
kind is dispatched through `bellOutcome`. -/
def runStep (ev : Except Unit String) (query : Except Unit (List HyprClient))
    (cfg : Config) : StepOutcome :=
  match ev with
  | Except.error _ => StepOutcome.fatal
  | Except.ok event =>
    match split_once event ">>" with
    | none => StepOutcome.skipMalformed
    | some (ev_type, data) =>
      if ev_type = "bell" then
        let out := bellOutcome query data cfg
        StepOutcome.bell out.1 out.2
      else StepOutcome.ignored ev_type

/-- `default_volume` from src/config/serde_helpers.rs. -/
def default_volume : Rat := 1

/-- `validate_volume` from src/config/serde_helpers.rs: accept exactly the
values of the inclusive range `0.0..=1.0`, fail otherwise. -/
def validate_volume (x : Rat) : Except Unit Rat :=
  if 0 ≤ x ∧ x ≤ 1 then Except.ok x else Except.error ()

/-- The raw shape of a `[[rule]]` table after TOML parsing and before the
field attributes run: the volume key may be absent. -/
structure RawRule where
  sound : Option String
  volume : Option Rat
  workspace : Option WorkspaceRule
  floating : Option Bool
  class_regex : Option (RegularExpression Char)
  title_regex : Option (RegularExpression Char)
  xwayland : Option Bool

/-- The raw shape of a configuration file after TOML parsing. -/
structure RawConfig where
  sound : Option String
  volume : Option Rat
  rules : List RawRule

/-- Modelled from the spec: the effect of the serde attributes
`#[serde(default = "default_volume", deserialize_with = "validate_volume")]`
on a volume key — an absent key takes `default_volume`, a present one passes
through `validate_volume`. -/
def volStep : Option Rat → Except Unit Rat
  | none => Except.ok default_volume
  | some x => validate_volume x

/-- Modelled from the spec: the serde field plumbing that the derived
`Deserialize` for `Rule` generates from the attributes in src/config.rs —
a volume validation failure fails the whole deserialization. -/
def mkRule (r : RawRule) : Except Unit Rule :=
  match volStep r.volume with
  | Except.error e => Except.error e
  | Except.ok v =>
    Except.ok
      { sound := r.sound, volume := v, workspace := r.workspace,
        floating := r.floating, class_regex := r.class_regex,
        title_regex := r.title_regex, xwayland := r.xwayland }

/-- Deserialize every rule of the list, failing on the first failure. -/
def mkRules : List RawRule → Except Unit (List Rule)
  | [] => Except.ok []
  | r :: rest =>
    match mkRule r with
    | Except.error e => Except.error e
    | Except.ok r2 =>
      match mkRules rest with
      | Except.error e => Except.error e
      | Except.ok rest2 => Except.ok (r2 :: rest2)

/-- Modelled from the spec: `Config::from_source` (src/config.rs) past the
TOML parse — the derived `Deserialize` for `Config` applies the same volume
default/validation to the global volume and deserializes each rule. -/
def from_source (raw : RawConfig) : Except Unit Config :=
  match volStep raw.volume with
  | Except.error e => Except.error e
  | Except.ok v =>
    match mkRules raw.rules with
    | Except.error e => Except.error e
    | Except.ok rs => Except.ok { sound := raw.sound, volume := v, rules := rs }

/-- An optional raw volume is acceptable when, if present, it lies in the
inclusive unit interval. -/
def volOk (o : Option Rat) : Prop := ∀ x, o = some x → 0 ≤ x ∧ x ≤ 1

/-- A concrete window descriptor used by the concrete-instance theorems. -/
def sampleClient : HyprClient :=
  { address := "0x1a2b3c", mapped := true, hidden := false,
    at_ := (9, 80), size := (1582, 911),
    workspace := { id := 3, name := "3" },
    floating := false, pseudo := false, monitor := 0,
    class_ := "firefox", title := "rust test",
    initial_class := "firefox", initial_title := "firefox",
    pid := 1386, xwayland := false, pinned := false,
    fullscreen := 0, fullscreen_client := 0, grouped := [],
    swallowing := "0x0", focus_history_id := 1,
    inhibiting_idle := false, xdg_tag := "", xdg_description := "",
    content_type := "none" }

/-- A later duplicate of `sampleClient`: same address, different workspace. -/
def dupClient : HyprClient :=
  { sampleClient with workspace := { id := 99, name := "99" } }

/-- A descriptor whose address lacks the `"0x"` prefix. -/
def noHexClient : HyprClient := { sampleClient with address := "1a2b3c" }

/-- The all-absent rule: every predicate is a wildcard. -/
def wildcardRule : Rule :=
  { sound := none, volume := 1, workspace := none, floating := none,
    class_regex := none, title_regex := none, xwayland := none }

/-- A rule requiring workspace id 99 (fails on `sampleClient`). -/
def ws99Rule : Rule :=
  { wildcardRule with workspace := some (WorkspaceRule.id 99) }

/-- The literal pattern `fire` as a regular expression. -/
def fireRe : RegularExpression Char :=
  RegularExpression.comp
    (RegularExpression.comp
      (RegularExpression.comp (RegularExpression.char 'f') (RegularExpression.char 'i'))
      (RegularExpression.char 'r'))
    (RegularExpression.char 'e')

/-- A rule requiring workspace id 3 and an unanchored `fire` class search. -/
def fireRule : Rule :=
  { wildcardRule with
    workspace := some (WorkspaceRule.id 3),
    class_regex := some fireRe }

/-- A configuration with a global default sound and one silent wildcard rule. -/
def globalCfg : Config :=
  { sound := some "/usr/share/sounds/bell.ogg", volume := 1 / 2,
    rules := [wildcardRule] }

/-- A raw rule whose volume key is present and equal to 1. -/
def rawWildcardRule : RawRule :=
  { sound := none, volume := some 1, workspace := none, floating := none,
    class_regex := none, title_regex := none, xwayland := none }

/-- A raw configuration with in-range volumes 0 and 1. -/
def rawGood : RawConfig :=
  { sound := none, volume := some 0, rules := [rawWildcardRule] }

/-- A raw configuration whose global volume exceeds 1. -/
def rawHigh : RawConfig :=
  { sound := none, volume := some (101 / 100), rules := [] }

/-- A raw configuration with an absent global volume and one rule whose
volume is negative. -/
def rawLow : RawConfig :=
  { sound := none, volume := none,
    rules := [{ rawWildcardRule with volume := some (-(1 / 10)) }] }

/-- C1: the claim states that a first byte matching `1110xxxx` makes the
decoder read exactly 2 further bytes and `1111xxxx` exactly 3 further bytes.
The code disagrees: the first match arm `x & 0xC0 == 0xC0` already holds for
those leaders, so they get length 2 (one further byte), exactly as 2-byte
leaders do — the later arms are shadowed, contradicting the comments beside
them in the source.  Concretely, the 3-byte character `0xE4 0xB8 0xAD`
followed by the terminator is consumed in three loop iterations (chunks
`[E4 B8]`, `[AD]`, `[0A]`) instead of the claimed two: fuel 2 is not enough
and fuel 3 returns the line. -/
theorem c1_utf8_length_arms_shadowed :
    utf8Len 0xC3 = 2 ∧ utf8Len 0xE4 = 2 ∧ utf8Len 0xF0 = 2 ∧ utf8Len 0x41 = 1 ∧
    get_event 2 (ofList [0xE4, 0xB8, 0xAD, 0x0A]) = none ∧
    get_event 3 (ofList [0xE4, 0xB8, 0xAD, 0x0A])
      = some (Except.ok ([0xE4, 0xB8, 0xAD], ByteStream.eof)) :=
  ⟨rfl, rfl, rfl, rfl, rfl, rfl⟩

/-- C2: a genuine read error does propagate out of `get_event`, but stream
closure does not: a read at end of stream succeeds with 0 bytes transferred,
the code never checks the transferred count, and the loop keeps appending the
zeroed buffer slot forever — `get_event` neither returns a line nor an error
on a closed stream, for any amount of fuel. -/
theorem c2_stream_closure_loops_forever :
    (∀ fuel buffer, getEventLoop fuel ByteStream.eof buffer = none) ∧
    (∀ fuel buffer,
      getEventLoop (fuel + 1) ByteStream.ioError buffer = some (Except.error ())) := by
  constructor
  · intro fuel
    induction fuel with
    | zero => intro buffer; rfl
    | succ n ih =>
      intro buffer
      show getEventLoop (n + 1) ByteStream.eof buffer = none
      rw [getEventLoop]
      exact ih (buffer ++ [0])
  · intro fuel buffer
    rfl

/-- Resolution returns the first client of the list passing `addrMatches`,
whatever follows it. -/
theorem resolveClient_append_first (pre post : List HyprClient) (c : HyprClient)
    (data : String) (hc : addrMatches c data = true)
    (hpre : ∀ c2 ∈ pre, addrMatches c2 data = false) :
    resolveClient (pre ++ c :: post) data = some c := by
  induction pre with
  | nil => simp [resolveClient, hc]
  | cons a as ih =>
    have ha := hpre a (List.mem_cons_self a as)
    simp only [List.cons_append, resolveClient, ha, Bool.false_eq_true, if_false]
    exact ih fun c2 h => hpre c2 (List.mem_cons_of_mem a h)

/-- A failed resolution makes `match_rule` false, for any rule. -/
theorem match_rule_of_resolve_none (clients : List HyprClient) (data : String)
    (rule : Rule) (h : resolveClient clients data = none) :
    match_rule clients data rule = false := by
  unfold match_rule
  rw [h]

/-- A failed resolution makes the whole rule loop fail, for any rule list. -/
theorem firstMatchingRule_of_resolve_none (clients : List HyprClient)
    (data : String) (h : resolveClient clients data = none) :
    ∀ rules : List Rule, firstMatchingRule clients data rules = none := by
  intro rules
  induction rules with
  | nil => rfl
  | cons r rest ih =>
    simp only [firstMatchingRule, match_rule_of_resolve_none clients data r h,
      Bool.false_eq_true, if_false]
    exact ih

/-- `addrMatches` is false exactly when the address does not split as
`"0x"` followed by the target. -/
theorem addrMatches_eq_false_iff (c : HyprClient) (data : String) :
    addrMatches c data = false ↔
      ∀ tail, c.address.toList = '0' :: 'x' :: tail → String.mk tail ≠ data := by
  unfold addrMatches
  split
  · rename_i tail heq
    simp only [decide_eq_false_iff_not]
    constructor
    · intro hne tail2 heq2
      rw [heq] at heq2
      cases heq2
      exact hne
    · intro h
      exact h tail heq
  · rename_i hno
    constructor
    · intro _ tail heq
      exact (hno tail heq).elim
    · intro _
      rfl

/-- C3: the rule loop of `App::run` evaluates the rules in list order and
returns the first rule all of whose present predicates hold for the resolved
window; the rules after the first match — matching or not — cannot change
the result, and when every earlier rule fails a later matching rule is
returned. -/
theorem c3_first_match_wins (clients : List HyprClient) (data : String)
    (pre post : List Rule) (r : Rule)
    (hpre : ∀ r2 ∈ pre, match_rule clients data r2 = false)
    (hr : match_rule clients data r = true) :
    firstMatchingRule clients data (pre ++ r :: post) = some r := by
  induction pre with
  | nil => simp [firstMatchingRule, hr]
  | cons a as ih =>
    have ha := hpre a (List.mem_cons_self a as)
    simp only [List.cons_append, firstMatchingRule, ha, Bool.false_eq_true, if_false]
    exact ih fun r2 h => hpre r2 (List.mem_cons_of_mem a h)

/-- C3 witness: with an earlier failing rule, a later matching rule and a
further matching rule behind it, the loop returns the middle one. -/
theorem c3_first_match_wins_witness :
    firstMatchingRule [sampleClient] "1a2b3c" [ws99Rule, wildcardRule, wildcardRule]
      = some wildcardRule :=
  c3_first_match_wins [sampleClient] "1a2b3c" [ws99Rule] [wildcardRule] wildcardRule
    (by
      intro r2 h
      rw [List.mem_singleton.mp h]
      rfl)
    rfl

/-- C4: target resolution compares the target byte-for-byte against each
address with its `"0x"` prefix stripped, a descriptor without that prefix
never matches, and when nothing resolves every rule fails to match and the
bell outcome is the global default. -/
theorem c4_resolution_and_fallback (clients : List HyprClient) (data : String)
    (rule : Rule) :
    (resolveClient clients data = none ↔
      ∀ c ∈ clients, ∀ tail, c.address.toList = '0' :: 'x' :: tail →
        String.mk tail ≠ data) ∧
    (resolveClient clients data = none → match_rule clients data rule = false) ∧
    (∀ cfg : Config, resolveClient clients data = none →
      bellOutcome (Except.ok clients) data cfg = (cfg.sound, cfg.volume)) := by
  refine ⟨?_, fun h => match_rule_of_resolve_none clients data rule h, ?_⟩
  · induction clients with
    | nil => simp [resolveClient]
    | cons c rest ih =>
      constructor
      · intro h
        have hsplit : addrMatches c data = false ∧ resolveClient rest data = none := by
          by_cases hc : addrMatches c data
          · rw [resolveClient, if_pos hc] at h
            exact absurd h (by simp)
          · rw [resolveClient, if_neg hc] at h
            exact ⟨Bool.eq_false_iff.mpr hc, h⟩
        intro c2 hmem
        rcases List.mem_cons.mp hmem with rfl | hmem2
        · exact (addrMatches_eq_false_iff c2 data).mp hsplit.1
        · exact (ih.mp hsplit.2) c2 hmem2
      · intro h
        have hc : addrMatches c data = false :=
          (addrMatches_eq_false_iff c data).mpr
            (h c (List.mem_cons_self c rest))
        rw [resolveClient, hc]
        simp only [Bool.false_eq_true, if_false]
        exact ih.mpr fun c2 hmem => h c2 (List.mem_cons_of_mem c hmem)
  · intro cfg h
    have hrules := firstMatchingRule_of_resolve_none clients data h cfg.rules
    simp [bellOutcome, hrules]

/-- C4 witness: the list holds only a descriptor whose address `"1a2b3c"`
lacks the `"0x"` prefix, so the matching target does not resolve, the rule
fails, and the dispatcher falls back to the global default outcome. -/
theorem c4_resolution_and_fallback_witness :
    match_rule [noHexClient] "1a2b3c" wildcardRule = false ∧
    bellOutcome (Except.ok [noHexClient]) "1a2b3c" globalCfg
      = (globalCfg.sound, globalCfg.volume) :=
  ⟨(c4_resolution_and_fallback [noHexClient] "1a2b3c" wildcardRule).2.1 rfl,
   (c4_resolution_and_fallback [noHexClient] "1a2b3c" wildcardRule).2.2 globalCfg rfl⟩

/-- C10: when several descriptors share the stripped address, the first one
in list order is resolved, and the descriptors after it cannot influence the
match result. -/
theorem c10_first_duplicate_wins (pre post : List HyprClient) (c : HyprClient)
    (data : String) (rule : Rule)
    (hc : addrMatches c data = true)
    (hpre : ∀ c2 ∈ pre, addrMatches c2 data = false) :
    resolveClient (pre ++ c :: post) data = some c ∧
    ∀ post2 : List HyprClient,
      match_rule (pre ++ c :: post) data rule
        = match_rule (pre ++ c :: post2) data rule := by
  refine ⟨resolveClient_append_first pre post c data hc hpre, ?_⟩
  intro post2
  unfold match_rule
  rw [resolveClient_append_first pre post c data hc hpre,
    resolveClient_append_first pre post2 c data hc hpre]

/-- C10 witness: with a later duplicate of the same address whose workspace
id is 99, the first descriptor is resolved and a rule requiring workspace 99
behaves exactly as if the duplicate were absent — it fails. -/
theorem c10_first_duplicate_wins_witness :
    resolveClient [sampleClient, dupClient] "1a2b3c" = some sampleClient ∧
    match_rule [sampleClient, dupClient] "1a2b3c" ws99Rule
      = match_rule [sampleClient] "1a2b3c" ws99Rule ∧
    match_rule [sampleClient] "1a2b3c" ws99Rule = false :=
  ⟨(c10_first_duplicate_wins [] [dupClient] sampleClient "1a2b3c" ws99Rule rfl
      (by intro c2 h; exact absurd h (List.not_mem_nil c2))).1,
   (c10_first_duplicate_wins [] [dupClient] sampleClient "1a2b3c" ws99Rule rfl
      (by intro c2 h; exact absurd h (List.not_mem_nil c2))).2 [],
   rfl⟩

/-- Membership in `tailsOf` is exactly being a suffix. -/
theorem mem_tailsOf (l t : List Char) : t ∈ tailsOf l ↔ ∃ p, l = p ++ t := by
  induction l with
  | nil =>
    simp only [tailsOf, List.mem_singleton]
    constructor
    · rintro rfl
      exact ⟨[], rfl⟩
    · rintro ⟨p, hp⟩
      rcases List.append_eq_nil.mp hp.symm with ⟨-, rfl⟩
      rfl
  | cons c r ih =>
    simp only [tailsOf, List.mem_cons, ih]
    constructor
    · rintro (rfl | ⟨p, rfl⟩)
      · exact ⟨[], rfl⟩
      · exact ⟨c :: p, rfl⟩
    · rintro ⟨p, hp⟩
      cases p with
      | nil => exact Or.inl hp.symm
      | cons a as =>
        rw [List.cons_append] at hp
        exact Or.inr ⟨as, (List.cons.injEq _ _ _ _ ▸ hp).2⟩

/-- Membership in `initsOf` is exactly being an initial segment. -/
theorem mem_initsOf (l m : List Char) : m ∈ initsOf l ↔ ∃ t, l = m ++ t := by
  induction l generalizing m with
  | nil =>
    simp only [initsOf, List.mem_singleton]
    constructor
    · rintro rfl
      exact ⟨[], rfl⟩
    · rintro ⟨t, ht⟩
      rcases List.append_eq_nil.mp ht.symm with ⟨rfl, -⟩
      rfl
  | cons c r ih =>
    simp only [initsOf, List.mem_cons, List.mem_map]
    constructor
    · rintro (rfl | ⟨m2, hm2, rfl⟩)
      · exact ⟨c :: r, rfl⟩
      · obtain ⟨t, rfl⟩ := (ih m2).mp hm2
        exact ⟨t, rfl⟩
    · rintro ⟨t, ht⟩
      cases m with
      | nil => exact Or.inl rfl
      | cons a as =>
        rw [List.cons_append] at ht
        obtain ⟨rfl, hr⟩ := List.cons.injEq _ _ _ _ ▸ ht
        exact Or.inr ⟨as, (ih as).mpr ⟨t, hr⟩, rfl⟩

/-- The modelled `is_match` succeeds exactly when some contiguous substring
of the haystack is in the language of the pattern. -/
theorem re_is_match_iff (re : RegularExpression Char) (s : String) :
    re_is_match re s = true ↔
      ∃ p m t, s.toList = p ++ m ++ t ∧ m ∈ re.matches' := by
  unfold re_is_match
  rw [List.any_eq_true]
  constructor
  · rintro ⟨u, hu, h2⟩
    rw [List.any_eq_true] at h2
    obtain ⟨m, hm, hr⟩ := h2
    obtain ⟨p, hp⟩ := (mem_tailsOf s.toList u).mp hu
    obtain ⟨t, ht⟩ := (mem_initsOf u m).mp hm
    refine ⟨p, m, t, ?_, (RegularExpression.rmatch_iff_matches' re m).mp hr⟩
    rw [hp, ht, List.append_assoc]
  · rintro ⟨p, m, t, hs, hm⟩
    refine ⟨m ++ t, ?_, ?_⟩
    · exact (mem_tailsOf s.toList (m ++ t)).mpr ⟨p, by rw [hs, List.append_assoc]⟩
    · rw [List.any_eq_true]
      exact ⟨m, (mem_initsOf (m ++ t) m).mpr ⟨t, rfl⟩,
        (RegularExpression.rmatch_iff_matches' re m).mpr hm⟩

/-- C5: once the target resolves, a rule matches exactly when every present
predicate holds — workspace id or name equality by matcher variant, boolean
equality for floating and xwayland, and unanchored regular-expression search
(some contiguous substring in the pattern language) for class and title;
absent fields impose nothing, so the all-absent rule matches any resolved
window. -/
theorem c5_predicate_conjunction (clients : List HyprClient) (data : String)
    (rule : Rule) (client : HyprClient)
    (hres : resolveClient clients data = some client) :
    match_rule clients data rule = true ↔
      (∀ i, rule.workspace = some (WorkspaceRule.id i) → client.workspace.id = i) ∧
      (∀ n, rule.workspace = some (WorkspaceRule.name n) → client.workspace.name = n) ∧
      (∀ b, rule.floating = some b → client.floating = b) ∧
      (∀ b, rule.xwayland = some b → client.xwayland = b) ∧
      (∀ re, rule.class_regex = some re →
        ∃ p m t, client.class_.toList = p ++ m ++ t ∧ m ∈ re.matches') ∧
      (∀ re, rule.title_regex = some re →
        ∃ p m t, client.title.toList = p ++ m ++ t ∧ m ∈ re.matches') := by
  obtain ⟨snd, vol, ws, fl, cr, tr, xw⟩ := rule
  unfold match_rule
  rw [hres]
  rcases ws with _ | (i | n) <;> rcases fl with _ | f <;> rcases xw with _ | x <;>
    rcases cr with _ | re1 <;> rcases tr with _ | re2 <;>
      simp [re_is_match_iff, and_assoc]

/-- C5 witness: the all-present example — workspace id 3 and class pattern
`fire` match the window with class `"firefox"`; applying the matched rule
back through the equivalence recovers the workspace equality. -/
theorem c5_predicate_conjunction_witness :
    match_rule [sampleClient] "1a2b3c" fireRule = true ∧
    match_rule [sampleClient] "1a2b3c" wildcardRule = true ∧
    sampleClient.workspace.id = 3 :=
  ⟨rfl, rfl,
    ((c5_predicate_conjunction [sampleClient] "1a2b3c" fireRule sampleClient
      rfl).mp rfl).1 3 rfl⟩

/-- A line of the form `"bell>>" ++ data` splits at the delimiter right
after the kind, whatever `data` holds. -/
theorem split_once_bell (data : String) :
    split_once ("bell>>" ++ data) ">>" = some ("bell", data) := by
  have h : ("bell>>" ++ data).toList = 'b' :: 'e' :: 'l' :: 'l' :: '>' :: '>' :: data.toList := rfl
  unfold split_once
  rw [show (">>" : String).toList = ['>', '>'] from rfl, h]
  simp [splitOnceChars, List.isPrefixOf]

/-- C6: when the directory query fails, the bell outcome is the global
default sound and volume, no rule is consulted (the rule list is irrelevant
to the outcome), and the dispatcher step stays non-fatal, producing the
default-outcome bell action. -/
theorem c6_query_failure_uses_global_default (data : String) (cfg : Config) :
    bellOutcome (Except.error ()) data cfg = (cfg.sound, cfg.volume) ∧
    (∀ rules1 rules2 : List Rule,
      bellOutcome (Except.error ()) data
        { sound := cfg.sound, volume := cfg.volume, rules := rules1 }
        = bellOutcome (Except.error ()) data
            { sound := cfg.sound, volume := cfg.volume, rules := rules2 }) ∧
    runStep (Except.ok ("bell>>" ++ data)) (Except.error ()) cfg
      = StepOutcome.bell cfg.sound cfg.volume := by
  refine ⟨rfl, fun _ _ => rfl, ?_⟩
  simp only [runStep, split_once_bell]
  rfl

/-- C7: when some rule matches, the outcome is exactly that rule's sound and
volume — the global default sound and volume do not appear in the result, so
an absent rule sound means silence even when a global sound is configured. -/
theorem c7_matched_rule_outcome (cfg : Config) (clients : List HyprClient)
    (data : String) (r : Rule)
    (h : firstMatchingRule clients data cfg.rules = some r) :
    bellOutcome (Except.ok clients) data cfg = (r.sound, r.volume) := by
  simp [bellOutcome, h]

/-- C7 witness: the silent wildcard rule matches while the global sound is
present, and the outcome is still no sound at the rule's volume. -/
theorem c7_matched_rule_outcome_witness :
    bellOutcome (Except.ok [sampleClient]) "1a2b3c" globalCfg
      = (wildcardRule.sound, wildcardRule.volume) ∧
    wildcardRule.sound = none ∧
    globalCfg.sound = some "/usr/share/sounds/bell.ogg" :=
  ⟨c7_matched_rule_outcome globalCfg [sampleClient] "1a2b3c" wildcardRule rfl,
   rfl, rfl⟩

/-- The volume step succeeds exactly on acceptable optional volumes. -/
theorem volStep_ok_iff (o : Option Rat) :
    (∃ v, volStep o = Except.ok v) ↔ volOk o := by
  cases o with
  | none =>
    simp [volStep, volOk]
  | some x =>
    simp only [volStep, validate_volume, volOk, Option.some.injEq]
    split
    · rename_i hx
      simp only [Except.ok.injEq]
      constructor
      · rintro - y rfl
        exact hx
      · intro _
        exact ⟨x, rfl⟩
    · rename_i hx
      constructor
      · rintro ⟨v, hv⟩
        exact absurd hv (by simp)
      · intro h
        exact absurd (h x rfl) hx

/-- A successful volume step yields a value in the unit interval, and the
default 1 when the key was absent. -/
theorem volStep_bounds (o : Option Rat) (v : Rat) (h : volStep o = Except.ok v) :
    (0 ≤ v ∧ v ≤ 1) ∧ (o = none → v = 1) := by
  cases o with
  | none =>
    simp only [volStep, Except.ok.injEq] at h
    subst h
    exact ⟨⟨by norm_num [default_volume], by norm_num [default_volume]⟩, fun _ => rfl⟩
  | some x =>
    simp only [volStep, validate_volume] at h
    split at h
    · rename_i hx
      cases h
      exact ⟨hx, by simp⟩
    · exact absurd h (by simp)

/-- Rule deserialization succeeds exactly on acceptable rule volumes. -/
theorem mkRule_ok_iff (r : RawRule) :
    (∃ r2, mkRule r = Except.ok r2) ↔ volOk r.volume := by
  rw [← volStep_ok_iff]
  unfold mkRule
  constructor
  · rintro ⟨r2, h2⟩
    cases hv : volStep r.volume with
    | error e => rw [hv] at h2; exact absurd h2 (by simp)
    | ok v => exact ⟨v, rfl⟩
  · rintro ⟨v, hv⟩
    rw [hv]
    exact ⟨_, rfl⟩

/-- A successfully deserialized rule has its volume in the unit interval,
the default 1 when the key was absent. -/
theorem mkRule_bounds (r : RawRule) (r2 : Rule) (h : mkRule r = Except.ok r2) :
    (0 ≤ r2.volume ∧ r2.volume ≤ 1) ∧ (r.volume = none → r2.volume = 1) := by
  unfold mkRule at h
  cases hv : volStep r.volume with
  | error e => rw [hv] at h; exact absurd h (by simp)
  | ok v =>
    rw [hv] at h
    cases h
    exact volStep_bounds r.volume v hv

/-- Rule-list deserialization succeeds exactly when every rule volume is
acceptable. -/
theorem mkRules_ok_iff (rs : List RawRule) :
    (∃ l, mkRules rs = Except.ok l) ↔ ∀ r ∈ rs, volOk r.volume := by
  induction rs with
  | nil => simp [mkRules]
  | cons r rest ih =>
    constructor
    · rintro ⟨l, hl⟩
      unfold mkRules at hl
      cases hr : mkRule r with
      | error e => rw [hr] at hl; exact absurd hl (by simp)
      | ok r2 =>
        rw [hr] at hl
        cases hrest : mkRules rest with
        | error e => rw [hrest] at hl; exact absurd hl (by simp)
        | ok l2 =>
          intro r3 hmem
          rcases List.mem_cons.mp hmem with rfl | hmem2
          · exact (mkRule_ok_iff r3).mp ⟨r2, hr⟩
          · exact (ih.mp ⟨l2, hrest⟩) r3 hmem2
    · intro h
      obtain ⟨r2, hr⟩ := (mkRule_ok_iff r).mpr (h r (List.mem_cons_self r rest))
      obtain ⟨l2, hrest⟩ := ih.mpr fun r3 hm => h r3 (List.mem_cons_of_mem r hm)
      exact ⟨r2 :: l2, by unfold mkRules; rw [hr, hrest]⟩

/-- Every rule produced by a successful rule-list deserialization has its
volume in the unit interval. -/
theorem mkRules_bounds (rs : List RawRule) (l : List Rule)
    (h : mkRules rs = Except.ok l) :
    ∀ r2 ∈ l, 0 ≤ r2.volume ∧ r2.volume ≤ 1 := by
  induction rs generalizing l with
  | nil =>
    unfold mkRules at h
    cases h
    intro r2 hm
    exact absurd hm (List.not_mem_nil r2)
  | cons r rest ih =>
    unfold mkRules at h
    cases hr : mkRule r with
    | error e => rw [hr] at h; exact absurd h (by simp)
    | ok r2 =>
      rw [hr] at h
      cases hrest : mkRules rest with
      | error e => rw [hrest] at h; exact absurd h (by simp)
      | ok l2 =>
        rw [hrest] at h
        cases h
        intro r3 hm
        rcases List.mem_cons.mp hm with rfl | hm2
        · exact (mkRule_bounds r r3 hr).1
        · exact ih l2 hrest r3 hm2

/-- C8: configuration deserialization succeeds exactly when every present
volume (global and per rule) lies in the inclusive interval [0, 1]; an
absent global volume defaults to 1; and every configuration it produces
carries only volumes inside [0, 1], so the matcher never sees an
out-of-domain volume. -/
theorem c8_volume_boundary (raw : RawConfig) :
    ((∃ cfg, from_source raw = Except.ok cfg) ↔
      (volOk raw.volume ∧ ∀ r ∈ raw.rules, volOk r.volume)) ∧
    ∀ cfg, from_source raw = Except.ok cfg →
      (0 ≤ cfg.volume ∧ cfg.volume ≤ 1) ∧
      (raw.volume = none → cfg.volume = 1) ∧
      ∀ r ∈ cfg.rules, 0 ≤ r.volume ∧ r.volume ≤ 1 := by
  constructor
  · constructor
    · rintro ⟨cfg, hcfg⟩
      unfold from_source at hcfg
      cases hv : volStep raw.volume with
      | error e => rw [hv] at hcfg; exact absurd hcfg (by simp)
      | ok v =>
        rw [hv] at hcfg
        cases hrs : mkRules raw.rules with
        | error e => rw [hrs] at hcfg; exact absurd hcfg (by simp)
        | ok l =>
          exact ⟨(volStep_ok_iff raw.volume).mp ⟨v, hv⟩,
            (mkRules_ok_iff raw.rules).mp ⟨l, hrs⟩⟩
    · rintro ⟨h1, h2⟩
      obtain ⟨v, hv⟩ := (volStep_ok_iff raw.volume).mpr h1
      obtain ⟨l, hrs⟩ := (mkRules_ok_iff raw.rules).mpr h2
      exact ⟨_, by unfold from_source; rw [hv, hrs]⟩
  · intro cfg hcfg
    unfold from_source at hcfg
    cases hv : volStep raw.volume with
    | error e => rw [hv] at hcfg; exact absurd hcfg (by simp)
    | ok v =>
      rw [hv] at hcfg
      cases hrs : mkRules raw.rules with
      | error e => rw [hrs] at hcfg; exact absurd hcfg (by simp)
      | ok l =>
        rw [hrs] at hcfg
        cases hcfg
        exact ⟨(volStep_bounds raw.volume v hv).1,
          (volStep_bounds raw.volume v hv).2,
          mkRules_bounds raw.rules l hrs⟩

/-- C8 witness: volumes 0 and 1 are accepted (and the produced configuration
is bounded), while 101/100 and -1/10 are rejected at the boundary. -/
theorem c8_volume_boundary_witness :
    from_source rawGood
      = Except.ok { sound := none, volume := 0, rules := [wildcardRule] } ∧
    (0 ≤ (0 : Rat) ∧ (0 : Rat) ≤ 1) ∧
    from_source rawHigh = Except.error () ∧
    from_source rawLow = Except.error () := by
  have hok : from_source rawGood
      = Except.ok { sound := none, volume := 0, rules := [wildcardRule] } := by
    norm_num [from_source, rawGood, volStep, validate_volume, mkRules, mkRule,
      rawWildcardRule, wildcardRule]
  refine ⟨hok, ((c8_volume_boundary rawGood).2 _ hok).1, ?_, ?_⟩
  · norm_num [from_source, rawHigh, volStep, validate_volume, mkRules]
  · norm_num [from_source, rawLow, volStep, validate_volume, mkRules, mkRule,
      rawWildcardRule]

/-- A list is a prefix of itself followed by anything. -/
theorem isPrefixOf_append_self (pat t : List Char) :
    pat.isPrefixOf (pat ++ t) = true := by
  induction pat with
  | nil => simp [List.isPrefixOf]
  | cons a as ih => simp [List.isPrefixOf, ih]

/-- A successful prefix test decomposes the list. -/
theorem eq_append_of_isPrefixOf {pat l : List Char}
    (h : pat.isPrefixOf l = true) : l = pat ++ l.drop pat.length := by
  induction pat generalizing l with
  | nil => simp
  | cons a as ih =>
    cases l with
    | nil => simp [List.isPrefixOf] at h
    | cons b bs =>
      simp only [List.isPrefixOf, Bool.and_eq_true, beq_iff_eq] at h
      obtain ⟨rfl, h2⟩ := h
      simp only [List.cons_append, List.length_cons, List.drop_succ_cons]
      rw [← ih h2]

/-- `splitOnceChars` splits the list around the pattern, and the cut is the
leftmost one: any other decomposition has a head part at least as long. -/
theorem splitOnceChars_sound (pat : List Char) :
    ∀ l k p, splitOnceChars pat l = some (k, p) →
      l = k ++ pat ++ p ∧
      ∀ k2 p2, l = k2 ++ pat ++ p2 → k.length ≤ k2.length := by
  intro l
  induction l with
  | nil =>
    intro k p h
    exact absurd h (by simp [splitOnceChars])
  | cons c rest ih =>
    intro k p h
    rw [splitOnceChars] at h
    by_cases hp : pat.isPrefixOf (c :: rest) = true
    · rw [if_pos hp] at h
      simp only [Option.some.injEq, Prod.mk.injEq] at h
      obtain ⟨rfl, rfl⟩ := h
      constructor
      · exact eq_append_of_isPrefixOf hp
      · intro k2 p2 h2
        exact Nat.zero_le _
    · rw [if_neg hp] at h
      cases hrec : splitOnceChars pat rest with
      | none =>
        rw [hrec] at h
        exact absurd h (by simp)
      | some kp =>
        obtain ⟨k1, p1⟩ := kp
        rw [hrec] at h
        simp only [Option.some.injEq, Prod.mk.injEq] at h
        obtain ⟨rfl, rfl⟩ := h
        obtain ⟨ha, hmin⟩ := ih k1 p1 hrec
        constructor
        · exact congrArg (List.cons c) ha
        · intro k2 p2 h2
          cases k2 with
          | nil =>
            exact absurd (h2 ▸ isPrefixOf_append_self pat p2) hp
          | cons c2 k2t =>
            simp only [List.cons_append] at h2
            injection h2 with hc hrest2
            exact Nat.succ_le_succ (hmin k2t p2 hrest2)

/-- C9: a decoded line splits at the first occurrence of `">>"` into kind
and payload (later occurrences stay inside the payload), a line without the
delimiter yields no event and the dispatcher skips it without an error, and
in general a successful split decomposes the line at the leftmost delimiter
position. -/
theorem c9_event_parsing :
    split_once "bell>>1a2b3c" ">>" = some ("bell", "1a2b3c") ∧
    split_once "a>>b>>c" ">>" = some ("a", "b>>c") ∧
    split_once "noise" ">>" = none ∧
    (∀ query cfg, runStep (Except.ok "noise") query cfg = StepOutcome.skipMalformed) ∧
    (∀ s k p : String, split_once s ">>" = some (k, p) →
      s.toList = k.toList ++ '>' :: '>' :: p.toList ∧
      ∀ k2 p2 : List Char, s.toList = k2 ++ '>' :: '>' :: p2 →
        k.toList.length ≤ k2.length) := by
  refine ⟨by decide, by decide, by decide, fun query cfg => rfl, ?_⟩
  intro s k p h
  unfold split_once at h
  rw [show (">>" : String).toList = ['>', '>'] from rfl] at h
  cases hs : splitOnceChars ['>', '>'] s.toList with
  | none =>
    rw [hs] at h
    exact absurd h (by simp)
  | some kp =>
    obtain ⟨kl, pl⟩ := kp
    rw [hs] at h
    simp only [Option.map_some, Option.map, Option.some.injEq, Prod.mk.injEq] at h
    obtain ⟨rfl, rfl⟩ := h
    obtain ⟨ha, hmin⟩ := splitOnceChars_sound ['>', '>'] s.toList kl pl hs
    constructor
    · rw [ha, List.append_assoc]
      rfl
    · intro k2 p2 h2
      exact hmin k2 p2 (by rw [h2, List.append_assoc]; rfl)

/-- C9 witness: the concrete line of the claim decomposes as kind, the
delimiter and payload. -/
theorem c9_event_parsing_witness :
    ("bell>>1a2b3c" : String).toList
      = ("bell" : String).toList ++ '>' :: '>' :: ("1a2b3c" : String).toList :=
  (c9_event_parsing.2.2.2.2 "bell>>1a2b3c" "bell" "1a2b3c" c9_event_parsing.1).1

end Onionbell
